import Mathlib

/-!
Verification of the SURF-MLP feature map module (src/feat/surf_mlp_featmap.rs).

The development shallowly embeds the module's data model and algorithms:

* the `FeaturePool` catalog builder (`create`, `collect_features`), embedded as
  fueled recursions because the source loops use `continue` in a way that can
  skip the loop increment (so they need not terminate);
* the per-image pipeline of `SurfMlpFeatureMap::compute` (gradients, 8-channel
  fill, sign-routing mask, two-pass integral summation), embedded over flat
  buffers modelled as functions `Nat -> Int` (i32 values; pixel intensities are
  below 256 so none of the gradient/mask arithmetic can overflow an i32, and
  the integral sums are compared as mathematical integers, which agrees with
  wrap-around arithmetic applied uniformly to both sides);
* a bounds-checked mirror of the pipeline (`checkedCompute`) in which every
  buffer index taken by the source's pointer arithmetic is checked against the
  owning allocation and every u32/usize subtraction is checked for underflow.
-/

namespace SurfMlp

/-- Rectangle (common::Rectangle): x, y, width, height, all u32. -/
structure Rectangle where
  x : Nat
  y : Nat
  width : Nat
  height : Nat
deriving DecidableEq

/-- PatchFormat from the source: width, height, num_cell_per_row, num_cell_per_col. -/
structure PatchFormat where
  width : Nat
  height : Nat
  numCellPerRow : Nat
  numCellPerCol : Nat
deriving DecidableEq

/-- Feature: a placed patch together with its cell grid. -/
structure Feature where
  patch : Rectangle
  numCellPerRow : Nat
  numCellPerCol : Nat
deriving DecidableEq

/-- FeaturePool: sampling parameters, the feature catalog, and the format list. -/
structure FeaturePool where
  sampleWidth : Nat
  sampleHeight : Nat
  patchMoveStepX : Nat
  patchMoveStepY : Nat
  patchSizeIncStep : Nat
  patchMinWidth : Nat
  patchMinHeight : Nat
  features : List Feature
  patchFormats : List PatchFormat
deriving DecidableEq

/-- FeaturePool::K_NUM_INT_CHANNEL. -/
def kNumIntChannel : Nat := 8

/-- FeaturePool::new(): every sampling parameter is zero and both lists are empty. -/
def FeaturePool.new : FeaturePool :=
  { sampleWidth := 0, sampleHeight := 0, patchMoveStepX := 0, patchMoveStepY := 0,
    patchSizeIncStep := 0, patchMinWidth := 0, patchMinHeight := 0,
    features := [], patchFormats := [] }

/-- FeaturePool::add_patch_format: push a format, no validation. -/
def FeaturePool.addPatchFormat (p : FeaturePool) (w h ncr ncc : Nat) : FeaturePool :=
  { p with patchFormats := p.patchFormats ++ [⟨w, h, ncr, ncc⟩] }

/-- One `while v <= lim { push v; v += step }` sweep (the x and y loops of
collect_features), as a fueled recursion: `none` means the loop has not
finished within `fuel` iterations (with `step = 0` it never finishes). -/
def sweepF (step lim : Nat) : Nat → Nat → Option (List Nat)
  | 0, _ => none
  | fuel + 1, v =>
    if v ≤ lim then (sweepF step lim fuel (v + step)).map (fun l => v :: l)
    else some []

/-- FeaturePool::collect_features: for `y` from 0 to sample_height - height by
patch_move_step_y, and innermost `x` from 0 to sample_width - width by
patch_move_step_x, push Feature { Rectangle::new(x, y, width, height), .. }.
The x loop does not depend on y, so the nested loops are the y-sweep paired
with each value of the x-sweep, y-major. -/
def collectFeaturesF (p : FeaturePool) (fuel w h ncr ncc : Nat) : Option (List Feature) := do
  let ys ← sweepF p.patchMoveStepY (p.sampleHeight - h) fuel 0
  let xs ← sweepF p.patchMoveStepX (p.sampleWidth - w) fuel 0
  pure (ys.flatMap (fun y => xs.map (fun x =>
    { patch := { x := x, y := y, width := w, height := h },
      numCellPerRow := ncr, numCellPerCol := ncc })))

/-- The height-primary size sweep of FeaturePool::create (source lines 266-279).
`continue` in the source skips the `h += patch_size_inc_step` increment, which
is modelled by recursing with the same `h` (consuming only fuel). -/
def hSweepF (p : FeaturePool) (f : PatchFormat) : Nat → Nat → Option (List Feature)
  | 0, _ => none
  | fuel + 1, h =>
    if h ≤ p.sampleHeight then
      if h % f.numCellPerCol ≠ 0 ∨ h % f.height ≠ 0 then
        hSweepF p f fuel h
      else
        let w := h / f.height * f.width
        if w % f.numCellPerRow ≠ 0 ∨ w < p.patchMinWidth ∨ w > p.sampleWidth then
          hSweepF p f fuel h
        else do
          let fs ← collectFeaturesF p (fuel + 1) w h f.numCellPerRow f.numCellPerCol
          let rest ← hSweepF p f fuel (h + p.patchSizeIncStep)
          pure (fs ++ rest)
    else some []

/-- The width-primary size sweep of FeaturePool::create (source lines 281-296). -/
def wSweepF (p : FeaturePool) (f : PatchFormat) : Nat → Nat → Option (List Feature)
  | 0, _ => none
  | fuel + 1, w =>
    if w ≤ p.sampleWidth then
      if w % f.numCellPerRow ≠ 0 ∨ w % f.width ≠ 0 then
        wSweepF p f fuel w
      else
        let h := w / f.width * f.height
        if h % f.numCellPerCol ≠ 0 ∨ h < p.patchMinHeight ∨ h > p.sampleHeight then
          wSweepF p f fuel w
        else do
          let fs ← collectFeaturesF p (fuel + 1) w h f.numCellPerRow f.numCellPerCol
          let rest ← wSweepF p f fuel (w + p.patchSizeIncStep)
          pure (fs ++ rest)
    else some []

/-- Iteration of the chosen sweep over the format list, in insertion order,
appending each format's features (the source accumulates into `feature_vecs`). -/
def formatsFold (sweep : PatchFormat → Option (List Feature)) :
    List PatchFormat → Option (List Feature)
  | [] => some []
  | f :: rest => do
    let a ← sweep f
    let b ← formatsFold sweep rest
    pure (a ++ b)

/-- FeaturePool::create, fueled.  On normal termination the produced features
are appended to the existing catalog (`self.features.append(&mut feature_vecs)`). -/
def createF (fuel : Nat) (p : FeaturePool) : Option FeaturePool :=
  let swept :=
    if p.sampleHeight - p.patchMinHeight ≤ p.sampleWidth - p.patchMinWidth then
      formatsFold (fun f => hSweepF p f fuel p.patchMinHeight) p.patchFormats
    else
      formatsFold (fun f => wSweepF p f fuel p.patchMinWidth) p.patchFormats
  swept.map (fun l => { p with features := p.features ++ l })

/-- SurfMlpFeatureMap::create_feature_pool's pool just before `create()` is
called: a fresh pool (all sampling parameters zero) with the five built-in
patch formats. -/
def builtinPool : FeaturePool :=
  ((((FeaturePool.new.addPatchFormat 1 1 2 2).addPatchFormat 1 2 2 2).addPatchFormat
      2 1 2 2).addPatchFormat 2 3 2 2).addPatchFormat 3 2 2 2

/-- FeaturePool::get_feature_vector_dim (checked indexing into the catalog). -/
def FeaturePool.getFeatureVectorDim (p : FeaturePool) (id : Nat) : Option Nat :=
  (p.features.get? id).map (fun f => f.numCellPerCol * f.numCellPerRow * kNumIntChannel)

/- Spec-side description of the catalog order (from the specification's words,
for the refinement claim about enumeration order). -/

/-- Number of values taken by a sweep `lo, lo+step, ...` while `<= bound`
(meaningful for `step > 0`; the fueled loops never terminate otherwise
unless the sweep is empty). -/
def countSteps (lo step bound : Nat) : Nat :=
  if bound < lo then 0 else (bound - lo) / step + 1

/-- The values of the sweep `lo, lo+step, ...` up to `bound`, in ascending order. -/
def sweptFrom (lo step bound : Nat) : List Nat :=
  (List.range (countSteps lo step bound)).map (fun i => lo + step * i)

/-- Spec: acceptance of a candidate primary height `h` for a format. -/
def acceptH (p : FeaturePool) (f : PatchFormat) (h : Nat) : Bool :=
  h % f.numCellPerCol == 0 && h % f.height == 0 &&
    (let w := h / f.height * f.width
     w % f.numCellPerRow == 0 && decide (p.patchMinWidth ≤ w) && decide (w ≤ p.sampleWidth))

/-- Spec: acceptance of a candidate primary width `w` for a format. -/
def acceptW (p : FeaturePool) (f : PatchFormat) (w : Nat) : Bool :=
  w % f.numCellPerRow == 0 && w % f.width == 0 &&
    (let h := w / f.width * f.height
     h % f.numCellPerCol == 0 && decide (p.patchMinHeight ≤ h) && decide (h ≤ p.sampleHeight))

/-- Spec: the placement grid for an accepted size, y ascending (outer, step
patch_move_step_y), x ascending (inner, step patch_move_step_x). -/
def specPlacements (p : FeaturePool) (w h ncr ncc : Nat) : List Feature :=
  (sweptFrom 0 p.patchMoveStepY (p.sampleHeight - h)).flatMap (fun y =>
    (sweptFrom 0 p.patchMoveStepX (p.sampleWidth - w)).map (fun x =>
      { patch := { x := x, y := y, width := w, height := h },
        numCellPerRow := ncr, numCellPerCol := ncc }))

/-- Spec: features contributed by one format when height is the primary axis,
starting the sweep at `lo`: accepted sizes in ascending sweep order, each
expanded to its placement grid. -/
def specSweepHFrom (p : FeaturePool) (f : PatchFormat) (lo : Nat) : List Feature :=
  ((sweptFrom lo p.patchSizeIncStep p.sampleHeight).filter (acceptH p f)).flatMap
    (fun h => specPlacements p (h / f.height * f.width) h f.numCellPerRow f.numCellPerCol)

/-- Spec: features contributed by one format when width is the primary axis. -/
def specSweepWFrom (p : FeaturePool) (f : PatchFormat) (lo : Nat) : List Feature :=
  ((sweptFrom lo p.patchSizeIncStep p.sampleWidth).filter (acceptW p f)).flatMap
    (fun w => specPlacements p w (w / f.width * f.height) f.numCellPerRow f.numCellPerCol)

/-- Spec: the whole catalog in the contractual order: formats in insertion
order; within a format, sizes in ascending sweep order along the primary axis
(height when sampleHeight - patchMinHeight <= sampleWidth - patchMinWidth,
width otherwise); within a size, y ascending then x ascending. -/
def specCatalog (p : FeaturePool) : List Feature :=
  if p.sampleHeight - p.patchMinHeight ≤ p.sampleWidth - p.patchMinWidth then
    p.patchFormats.flatMap (fun f => specSweepHFrom p f p.patchMinHeight)
  else
    p.patchFormats.flatMap (fun f => specSweepWFrom p f p.patchMinWidth)

/- Model of the per-feature storage sizing loop of SurfMlpFeatureMap::new
(source lines 37-44). -/

/-- Vec::with_capacity reserves capacity but the vector's *length* is 0. -/
def vecWithCapacity (_capacity : Nat) : List (List Int) :=
  []

/-- `v[i] = x` on a Vec: an out-of-bounds index (i >= length) panics. -/
def vecSetChecked (l : List (List Int)) (i : Nat) (x : List Int) :
    Option (List (List Int)) :=
  if i < l.length then some (l.set i x) else none

/-- The loop `for feature_id in 0..feature_pool_size { feature_vectors[feature_id] = ... }`
of SurfMlpFeatureMap::new, assigning into the length-0 vector produced by
Vec::with_capacity.  `dim` gives the per-feature vector dimension. -/
def newStorageLoop (dim : Nat → Nat) (size : Nat) : Option (List (List Int)) :=
  (List.range size).foldlM
    (fun v fid => vecSetChecked v fid (List.replicate (dim fid) 0))
    (vecWithCapacity size)

/- Value model of the per-image pipeline.  Buffers are flat i32 arrays,
modelled as total functions `Nat -> Int`; each loop of the source becomes a
fold of region writes over the same index ranges the pointers walk. -/

/-- Write the contiguous region `[o, o + len)` of buffer `d`, the element at
`o + i` receiving `f i`; all other entries are unchanged.  This is the effect
of one `math::vector_*` call (or of a single `*dest = v` write with len 1). -/
def wrb (d : Nat → Int) (o len : Nat) (f : Nat → Int) : Nat → Int :=
  fun idx => if o ≤ idx ∧ idx < o + len then f (idx - o) else d idx

/-- One row of compute_grad_x (source lines 99-109), on the row starting at
offset `r * w` of the widened image `I`:
`dest[0] = (I[o+1] - I[o]) << 1`, then
`vector_sub(src+2, src, dest+1, w-2)`, then
`dest[w-1] = (I[o+w-1] - I[o+w-2]) << 1`. -/
def gradXRowStep (I : Nat → Int) (w r : Nat) (d : Nat → Int) : Nat → Int :=
  let o := r * w
  let d1 := wrb d o 1 (fun _ => (I (o + 1) - I o) * 2)
  let d2 := wrb d1 (o + 1) (w - 2) (fun i => I (o + 2 + i) - I (o + i))
  wrb d2 (o + (w - 1)) 1 (fun _ => (I (o + (w - 1)) - I (o + (w - 1) - 1)) * 2)

/-- SurfMlpFeatureMap::compute_grad_x: the row step for every row r < h. -/
def computeGradX (I : Nat → Int) (w h : Nat) (d : Nat → Int) : Nat → Int :=
  (List.range h).foldl (fun acc r => gradXRowStep I w r acc) d

/-- SurfMlpFeatureMap::compute_grad_y (source lines 114-134): first row
`2*(I[1,*] - I[0,*])`, interior rows `I[r+1,*] - I[r-1,*]` via
`vector_sub(src + 2w, src, dy + r*w, w)` with `src = input + (r-1)*w`,
last row `2*(I[h-1,*] - I[h-2,*])`. -/
def computeGradY (I : Nat → Int) (w h : Nat) (d : Nat → Int) : Nat → Int :=
  let d1 := wrb d 0 w (fun c => I (w + c) - I c)
  let d2 := wrb d1 0 w (fun c => d1 c + d1 c)
  let d3 := (List.range (h - 1 - 1)).foldl (fun acc k =>
    let r := k + 1
    wrb acc (r * w) w (fun c => I ((r - 1) * w + 2 * w + c) - I ((r - 1) * w + c))) d2
  let o := (h - 1) * w
  let d4 := wrb d3 o w (fun c => I (o + c) - I (o - w + c))
  wrb d4 o w (fun c => d4 (o + c) + d4 (o + c))

/-- SurfMlpFeatureMap::fill_integral_channel: starting at channel `ch` the
pointer walks the interleaved buffer with stride 8, writing `src[i]` to the
entries `8*i + ch` and `8*i + ch + 2` of each pixel `i < len` (at every call
site `ch + 2 < 8`, so `8*i + ch` and `8*i + ch + 2` are exactly the indices
whose residue mod 8 is `ch` resp. `ch + 2`). -/
def fillIntegralChannel (len : Nat) (src : Nat → Int) (ch : Nat) (dest : Nat → Int) :
    Nat → Int :=
  fun idx =>
    if idx / 8 < len ∧ (idx % 8 = ch ∨ idx % 8 = ch + 2) then src (idx / 8) else dest idx

/-- The four fill_integral_channel calls of compute_integral_images (source
lines 142-147), in order: gx into channels 0/2, gy into channels 4/6, then
|gx| (math::abs into img_buf) into 1/3, then |gy| into 5/7. -/
def computeIntegralChannels (len : Nat) (gx gy : Nat → Int) (b : Nat → Int) : Nat → Int :=
  let s1 := fillIntegralChannel len gx 0 b
  let s2 := fillIntegralChannel len gy 4 s1
  let s3 := fillIntegralChannel len (fun i => |gx i|) 1 s2
  fillIntegralChannel len (fun i => |gy i|) 5 s3

/-- The xor_bits table of mask_integral_channel. -/
def xorBits : List Nat := [0xffffffff, 0xffffffff, 0, 0]

/-- `value & mask` where the mask is (cmp ^ xor_bits[j]) reinterpreted as i32:
either all ones (0xffffffff, i.e. -1, so the AND is the identity) or all
zeros (so the AND yields 0). -/
def landMask (v : Int) (m : Nat) : Int :=
  if m = 0 then 0 else v

/-- SurfMlpFeatureMap::mask_integral_channel (source lines 164-196).  Note the
source reads `dx` and `dy` from the FIXED flat index 1 of the gradient
buffers (`*grad_x_ptr.offset(1)`, the pointers are never advanced), not from
the current pixel.  Channels 0-3 of every pixel are masked by the sign of
`dy`, channels 4-7 by the sign of `dx`, through the xor_bits table. -/
def maskIntegralChannel (len : Nat) (gx gy : Nat → Int) (b : Nat → Int) : Nat → Int :=
  let dx := gx 1
  let dy := gy 1
  let cmpY : Nat := if dy < 0 then 0xffffffff else 0
  let cmpX : Nat := if dx < 0 then 0xffffffff else 0
  fun idx =>
    if idx / 8 < len then
      let j := idx % 8
      if j < 4 then landMask (b idx) (Nat.xor cmpY (xorBits.getD j 0))
      else landMask (b idx) (Nat.xor cmpX (xorBits.getD (j - 4) 0))
    else b idx

/-- First pass of SurfMlpFeatureMap::integral: for r in 0..h-1,
`vector_add(row r, row r+1, row r+1, 8*w)`, top to bottom, in place (each row
is 8*w consecutive i32s covering all channels). -/
def integralRowPass (w h : Nat) (b : Nat → Int) : Nat → Int :=
  (List.range (h - 1)).foldl (fun acc r =>
    wrb acc ((r + 1) * (8 * w)) (8 * w)
      (fun i => acc (r * (8 * w) + i) + acc ((r + 1) * (8 * w) + i))) b

/-- SurfMlpFeatureMap::vector_cumulative_add on the row starting at offset
`o`: for i in 0..(8*w/8 - 1), `vector_add(col i, col i+1, col i+1, 8)`,
left to right, in place (each column is 8 consecutive channel entries). -/
def cumulativeRow (w o : Nat) (b : Nat → Int) : Nat → Int :=
  (List.range (8 * w / 8 - 1)).foldl (fun acc i =>
    wrb acc (o + (i + 1) * 8) 8
      (fun ch => acc (o + i * 8 + ch) + acc (o + (i + 1) * 8 + ch))) b

/-- Second pass of SurfMlpFeatureMap::integral: vector_cumulative_add on
every row r < h. -/
def integralColPass (w h : Nat) (b : Nat → Int) : Nat → Int :=
  (List.range h).foldl (fun acc r => cumulativeRow w (r * (8 * w)) acc) b

/-- SurfMlpFeatureMap::integral: the row pass then the column pass. -/
def integralImage (w h : Nat) (b : Nat → Int) : Nat → Int :=
  integralColPass w h (integralRowPass w h b)

/-- The per-image mutable state of SurfMlpFeatureMap (the engine): dimensions
and the four buffers.  The feature-pool/catalog state is modelled separately
by `FeaturePool`. -/
structure Engine where
  width : Nat
  height : Nat
  length : Nat
  gradX : Nat → Int
  gradY : Nat → Int
  intImg : Nat → Int
  imgBuf : Nat → Int

/-- SurfMlpFeatureMap::reshape: record the new dimensions and resize the
buffers (Vec::resize keeps the existing entries below the old length and
zero-fills newly exposed ones). -/
def Engine.reshape (e : Engine) (w h : Nat) : Engine :=
  let len := w * h
  { width := w, height := h, length := len,
    gradX := fun i => if i < e.length then e.gradX i else 0,
    gradY := fun i => if i < e.length then e.gradY i else 0,
    intImg := fun i => if i < e.length * kNumIntChannel then e.intImg i else 0,
    imgBuf := fun i => if i < e.length then e.imgBuf i else 0 }

/-- The interleaved 8-channel buffer just after mask_integral_channel (and
before `integral`), for an engine `e` that has already been reshaped to
`w`, `h`: pixels are widened into int_img, gradients are computed from it,
the four channel fills run, then the sign-routing mask. -/
def maskedStage (e : Engine) (px : Nat → Nat) (w h : Nat) : Nat → Int :=
  let len := w * h
  let copied := fun i => if i < len then ((px i : Int)) else e.intImg i
  let gx := computeGradX copied w h e.gradX
  let gy := computeGradY copied w h e.gradY
  maskIntegralChannel len gx gy (computeIntegralChannels len gx gy copied)

/-- The whole buffer-producing pipeline of compute (after the argument check
and reshape): copy_u8_to_i32, compute_grad_x/y, compute_integral_images. -/
def Engine.pipeline (e : Engine) (px : Nat → Nat) : Engine :=
  let w := e.width
  let h := e.height
  let len := e.length
  let copied := fun i => if i < len then ((px i : Int)) else e.intImg i
  let gx := computeGradX copied w h e.gradX
  let gy := computeGradY copied w h e.gradY
  { e with
    gradX := gx,
    gradY := gy,
    imgBuf := fun i => if i < len then |gy i| else e.imgBuf i,
    intImg := integralImage w h (maskedStage e px w h) }

/-- SurfMlpFeatureMap::compute.  The boolean is the panic flag: `true` means
the call aborted with the InvalidArgument panic (width or height zero), which
happens before any state is touched, so the returned state is the input
state; otherwise the reshaped engine runs the pipeline. -/
def Engine.computeRun (e : Engine) (px : Nat → Nat) (w h : Nat) : Engine × Bool :=
  if w = 0 ∨ h = 0 then (e, true)
  else ((e.reshape w h).pipeline px, false)

/- Bounds-checked mirror of the pipeline.  After reshape the allocations are:
input w*h bytes, grad_x / grad_y / img_buf w*h i32s, int_img 8*w*h i32s.
Every index the source's pointer arithmetic dereferences is checked against
the owning allocation, and every u32/usize subtraction is checked for
underflow (u32 subtraction panics on underflow in a debug build and in a
release build produces a wrapped length that walks far out of bounds). -/

/-- Checked u32/usize subtraction. -/
def cSub (a b : Nat) : Option Nat :=
  if b ≤ a then some (a - b) else none

/-- Check a single dereference at index `i` of an allocation of `size` elements. -/
def checkIdx (i size : Nat) : Option Unit :=
  if i < size then some () else none

/-- Check an elementwise walk over `[off, off + len)` of an allocation. -/
def checkRange (off len size : Nat) : Option Unit :=
  if off + len ≤ size then some () else none

/-- Check a dereference at a (possibly negative) isize-offset index. -/
def checkIdxI (i : Int) (size : Nat) : Option Unit :=
  if 0 ≤ i ∧ i < size then some () else none

/-- Check an elementwise walk starting at a (possibly negative) isize offset. -/
def checkRangeI (off : Int) (len size : Nat) : Option Unit :=
  if 0 ≤ off ∧ off + len ≤ size then some () else none

/-- Run a check for every loop index below `n`. -/
def forRange (n : Nat) (f : Nat → Option Unit) : Option Unit :=
  (List.range n).foldlM (fun _ i => f i) ()

/-- math::copy_u8_to_i32(input, int_img, length): reads input[0..len), writes
int_img[0..len). -/
def checkCopy (w h : Nat) : Option Unit := do
  let _ ← checkRange 0 (w * h) (w * h)
  checkRange 0 (w * h) (8 * (w * h))

/-- compute_grad_x: `let len = (width - 2) as usize` then per row the two edge
dereferences and the shifted vector_sub. -/
def checkGradX (w h : Nat) : Option Unit := do
  let len2 ← cSub w 2
  forRange h (fun r => do
    let o := r * w
    let _ ← checkIdx (o + 1) (8 * (w * h))
    let _ ← checkIdx o (8 * (w * h))
    let _ ← checkIdx o (w * h)
    let _ ← checkRange (o + 2) len2 (8 * (w * h))
    let _ ← checkRange o len2 (8 * (w * h))
    let _ ← checkRange (o + 1) len2 (w * h)
    let off ← cSub w 1
    let _ ← checkIdx (o + off) (8 * (w * h))
    let _ ← checkIdxI ((o : Int) + off - 1) (8 * (w * h))
    checkIdx (o + off) (w * h))

/-- compute_grad_y: first-row vector_sub/vector_add, the interior-row loop
`for r in 1..(height-1)`, and the last row at `offset - width` (an isize
subtraction that goes negative when h = 1). -/
def checkGradY (w h : Nat) : Option Unit := do
  let _ ← checkRange w w (8 * (w * h))
  let _ ← checkRange 0 w (8 * (w * h))
  let _ ← checkRange 0 w (w * h)
  let _ ← checkRange 0 w (w * h)
  let h1 ← cSub h 1
  let _ ← forRange (h1 - 1) (fun k => do
    let r := k + 1
    let _ ← checkRange ((r - 1) * w + 2 * w) w (8 * (w * h))
    let _ ← checkRange ((r - 1) * w) w (8 * (w * h))
    checkRange (r * w) w (w * h))
  let o := h1 * w
  let _ ← checkRange o w (8 * (w * h))
  let _ ← checkRangeI ((o : Int) - w) w (8 * (w * h))
  let _ ← checkRange o w (w * h)
  checkRange o w (w * h)

/-- fill_integral_channel: per pixel, read src[i] and write int_img at
8*i + ch and 8*i + ch + 2. -/
def checkFill (len ch srcSize : Nat) : Option Unit :=
  forRange len (fun i => do
    let _ ← checkIdx i srcSize
    let _ ← checkIdx (8 * i + ch) (8 * len)
    checkIdx (8 * i + ch + 2) (8 * len))

/-- math::abs(grad, img_buf, length). -/
def checkAbs (len : Nat) : Option Unit :=
  forRange len (fun i => do
    let _ ← checkIdx i len
    checkIdx i len)

/-- mask_integral_channel: the fixed reads grad_x[1] and grad_y[1], then the
sequential walk over all 8 channels of every pixel. -/
def checkMask (len : Nat) : Option Unit := do
  let _ ← checkIdx 1 len
  let _ ← checkIdx 1 len
  forRange len (fun i => forRange 8 (fun j => checkIdx (8 * i + j) (8 * len)))

/-- integral: the downward row pass over r in 0..h-1 and the per-row
cumulative pass with `cols = (8*w)/8 - 1` shifted column adds. -/
def checkIntegral (w h : Nat) : Option Unit := do
  let h1 ← cSub h 1
  let _ ← forRange h1 (fun r => do
    let _ ← checkRange (r * (8 * w)) (8 * w) (8 * (w * h))
    checkRange ((r + 1) * (8 * w)) (8 * w) (8 * (w * h)))
  forRange h (fun r => do
    let cols ← cSub (8 * w / 8) 1
    forRange cols (fun i => do
      let _ ← checkRange (r * (8 * w) + i * 8) 8 (8 * (w * h))
      checkRange (r * (8 * w) + (i + 1) * 8) 8 (8 * (w * h))))

/-- The whole checked compute call: the InvalidArgument panic check, then
every indexing/subtraction check of the pipeline in source order.  `some ()`
means the call runs to completion with all accesses in bounds. -/
def checkedCompute (w h : Nat) : Option Unit := do
  let _ ← if w = 0 ∨ h = 0 then none else some ()
  let _ ← checkCopy w h
  let _ ← checkGradX w h
  let _ ← checkGradY w h
  let _ ← checkFill (w * h) 0 (w * h)
  let _ ← checkFill (w * h) 4 (w * h)
  let _ ← checkAbs (w * h)
  let _ ← checkFill (w * h) 1 (w * h)
  let _ ← checkAbs (w * h)
  let _ ← checkFill (w * h) 5 (w * h)
  let _ ← checkMask (w * h)
  checkIntegral w h

/- Concrete instances used by witnesses and counterexamples. -/

/-- A 2x2 test image, row-major: row 0 = [5, 0], row 1 = [0, 7]. -/
def px0 : Nat → Nat := fun i => [5, 0, 0, 7].getD i 0

/-- px0 widened to i32 (the copy_u8_to_i32 result). -/
def img0 : Nat → Int := fun i => ((px0 i : Int))

/-- A fresh engine (all dimensions zero, all buffers zero). -/
def e0 : Engine :=
  { width := 0, height := 0, length := 0,
    gradX := fun _ => 0, gradY := fun _ => 0,
    intImg := fun _ => 0, imgBuf := fun _ => 0 }

/-- A sampling configuration on which createF terminates: 4x4 sample, all
steps and minima 2, one format (1,1,2,2). -/
def egPool : FeaturePool :=
  { sampleWidth := 4, sampleHeight := 4, patchMoveStepX := 2, patchMoveStepY := 2,
    patchSizeIncStep := 2, patchMinWidth := 2, patchMinHeight := 2,
    features := [], patchFormats := [⟨1, 1, 2, 2⟩] }

/-- The pool produced by createF on egPool: sizes 2x2 (four placements) then
4x4 (one placement). -/
def egRes : FeaturePool :=
  { egPool with features :=
      [⟨⟨0, 0, 2, 2⟩, 2, 2⟩, ⟨⟨2, 0, 2, 2⟩, 2, 2⟩,
       ⟨⟨0, 2, 2, 2⟩, 2, 2⟩, ⟨⟨2, 2, 2, 2⟩, 2, 2⟩,
       ⟨⟨0, 0, 4, 4⟩, 2, 2⟩] }

/- ------------------------------------------------------------------ -/
/- Theorems.                                                           -/
/- ------------------------------------------------------------------ -/

theorem mul_add_div_eight (i ch : Nat) (hch : ch < 8) : (8 * i + ch) / 8 = i := by
  rw [Nat.mul_add_div (by norm_num)]
  simp [Nat.div_eq_of_lt hch]

theorem mul_add_mod_eight (i ch : Nat) (hch : ch < 8) : (8 * i + ch) % 8 = ch := by
  rw [Nat.mul_add_mod]
  exact Nat.mod_eq_of_lt hch

theorem pixel_lt_len {r c w h : Nat} (hr : r < h) (hc : c < w) : r * w + c < w * h := by
  have h1 : r * w + c < (r + 1) * w := by
    simp [Nat.add_mul]; omega
  have h2 : (r + 1) * w ≤ h * w := Nat.mul_le_mul_right w hr
  calc r * w + c < (r + 1) * w := h1
    _ ≤ h * w := h2
    _ = w * h := Nat.mul_comm h w

/-- Claim C5: after the four channel fills and before masking, pixel (r, c)
of the interleaved buffer holds exactly
[0]=gx, [1]=|gx|, [2]=gx, [3]=|gx|, [4]=gy, [5]=|gy|, [6]=gy, [7]=|gy|,
where gx, gy are that pixel's entries of the gradient buffers, at the
row-major channel-minor flat index 8*(r*w + c) + ch. -/
theorem claim_C5_fill_layout (gx gy b : Nat → Int) (w h r c ch : Nat)
    (hr : r < h) (hc : c < w) (hch : ch < 8) :
    computeIntegralChannels (w * h) gx gy b (8 * (r * w + c) + ch) =
      [gx (r * w + c), |gx (r * w + c)|, gx (r * w + c), |gx (r * w + c)|,
       gy (r * w + c), |gy (r * w + c)|, gy (r * w + c), |gy (r * w + c)|].getD ch 0 := by
  have hi : r * w + c < w * h := pixel_lt_len hr hc
  have hdiv := mul_add_div_eight (r * w + c) ch hch
  have hmod := mul_add_mod_eight (r * w + c) ch hch
  unfold computeIntegralChannels fillIntegralChannel
  simp only [hdiv, hmod, hi, true_and]
  interval_cases ch <;> simp

/-- Claim C5 witness at a concrete pixel. -/
theorem claim_C5_fill_layout_witness :
    computeIntegralChannels (2 * 2) (fun _ => 3) (fun _ => -4) (fun _ => 9)
        (8 * (1 * 2 + 1) + 5) =
      [(3 : Int), |(3 : Int)|, 3, |(3 : Int)|, -4, |(-4 : Int)|, -4,
       |(-4 : Int)|].getD 5 0 :=
  claim_C5_fill_layout (fun _ => 3) (fun _ => -4) (fun _ => 9) 2 2 1 1 5
    (by decide) (by decide) (by decide)

/-- Claim C9: immediately after the masking step, at every pixel one side of
each routed channel group is forced to zero: at least one of the groups
{0,1} / {2,3} is entirely zero, and likewise at least one of {4,5} / {6,7};
the routing never leaves both sides of a group nonzero. -/
theorem claim_C9_mask_exclusive (len : Nat) (gx gy b : Nat → Int) (i : Nat)
    (hi : i < len) :
    ((maskIntegralChannel len gx gy b (8 * i + 0) = 0 ∧
      maskIntegralChannel len gx gy b (8 * i + 1) = 0) ∨
     (maskIntegralChannel len gx gy b (8 * i + 2) = 0 ∧
      maskIntegralChannel len gx gy b (8 * i + 3) = 0)) ∧
    ((maskIntegralChannel len gx gy b (8 * i + 4) = 0 ∧
      maskIntegralChannel len gx gy b (8 * i + 5) = 0) ∨
     (maskIntegralChannel len gx gy b (8 * i + 6) = 0 ∧
      maskIntegralChannel len gx gy b (8 * i + 7) = 0)) := by
  have hd : ∀ ch, ch < 8 → (8 * i + ch) / 8 = i ∧ (8 * i + ch) % 8 = ch := fun ch hch =>
    ⟨mul_add_div_eight i ch hch, mul_add_mod_eight i ch hch⟩
  unfold maskIntegralChannel
  have hxor : ∀ n : Nat, Nat.xor n n = 0 := fun n => Nat.xor_self n
  constructor
  · by_cases hdy : gy 1 < 0
    · left
      constructor <;>
        simp [(hd 0 (by norm_num)).1, (hd 0 (by norm_num)).2,
          (hd 1 (by norm_num)).1, (hd 1 (by norm_num)).2, hi, hdy, xorBits, landMask, hxor]
    · right
      constructor <;>
        simp [(hd 2 (by norm_num)).1, (hd 2 (by norm_num)).2,
          (hd 3 (by norm_num)).1, (hd 3 (by norm_num)).2, hi, hdy, xorBits, landMask, hxor]
  · by_cases hdx : gx 1 < 0
    · left
      constructor <;>
        simp [(hd 4 (by norm_num)).1, (hd 4 (by norm_num)).2,
          (hd 5 (by norm_num)).1, (hd 5 (by norm_num)).2, hi, hdx, xorBits, landMask, hxor]
    · right
      constructor <;>
        simp [(hd 6 (by norm_num)).1, (hd 6 (by norm_num)).2,
          (hd 7 (by norm_num)).1, (hd 7 (by norm_num)).2, hi, hdx, xorBits, landMask, hxor]

/-- Claim C9 witness at a concrete pixel of a concrete buffer. -/
theorem claim_C9_mask_exclusive_witness :
    ((maskIntegralChannel 4 (fun _ => -3) (fun _ => 2) (fun _ => 1) (8 * 2 + 0) = 0 ∧
      maskIntegralChannel 4 (fun _ => -3) (fun _ => 2) (fun _ => 1) (8 * 2 + 1) = 0) ∨
     (maskIntegralChannel 4 (fun _ => -3) (fun _ => 2) (fun _ => 1) (8 * 2 + 2) = 0 ∧
      maskIntegralChannel 4 (fun _ => -3) (fun _ => 2) (fun _ => 1) (8 * 2 + 3) = 0)) ∧
    ((maskIntegralChannel 4 (fun _ => -3) (fun _ => 2) (fun _ => 1) (8 * 2 + 4) = 0 ∧
      maskIntegralChannel 4 (fun _ => -3) (fun _ => 2) (fun _ => 1) (8 * 2 + 5) = 0) ∨
     (maskIntegralChannel 4 (fun _ => -3) (fun _ => 2) (fun _ => 1) (8 * 2 + 6) = 0 ∧
      maskIntegralChannel 4 (fun _ => -3) (fun _ => 2) (fun _ => 1) (8 * 2 + 7) = 0)) :=
  claim_C9_mask_exclusive 4 (fun _ => -3) (fun _ => 2) (fun _ => 1) 2 (by decide)

/-- Claim C1 (code evidence): the mask routes every pixel by the gradient
signs at the FIXED flat index 1, not by the pixel's own gradients.  On the
2x2 image [5,0;0,7], the vertical gradient at pixel (0,0) is -10 < 0, so the
claimed per-pixel routing would zero channel 0 and keep channel 2 = gx = -10
there; the code instead keeps channel 0 (= -10, nonzero) and zeroes channel 2,
because grad_y at flat index 1 (pixel (0,1)) is 14, non-negative. -/
theorem claim_C1_fixed_index_mask :
    maskedStage (e0.reshape 2 2) px0 2 2 (8 * (0 * 2 + 0) + 0) = -10 ∧
    maskedStage (e0.reshape 2 2) px0 2 2 (8 * (0 * 2 + 0) + 2) = 0 ∧
    computeGradY (fun i => ((px0 i : Int))) 2 2 ((e0.reshape 2 2).gradY) (0 * 2 + 0)
      = -10 ∧
    computeGradY (fun i => ((px0 i : Int))) 2 2 ((e0.reshape 2 2).gradY) 1 = 14 := by
  decide

/-- Claim C7: compute fails with the InvalidArgument panic exactly when width
or height is zero, and on that failure the engine state is returned untouched
(the check precedes every mutation). -/
theorem claim_C7_invalid_argument (e : Engine) (px : Nat → Nat) (w h : Nat) :
    ((e.computeRun px w h).2 = true ↔ (w = 0 ∨ h = 0)) ∧
    ((e.computeRun px w h).2 = true → (e.computeRun px w h).1 = e) := by
  unfold Engine.computeRun
  by_cases hwh : w = 0 ∨ h = 0 <;> simp [hwh]

/-- Claim C7 witness: a zero-width call leaves the fresh engine untouched. -/
theorem claim_C7_invalid_argument_witness : (e0.computeRun px0 0 3).1 = e0 :=
  (claim_C7_invalid_argument e0 px0 0 3).2
    ((claim_C7_invalid_argument e0 px0 0 3).1.mpr (Or.inl rfl))

/-- Claim C10 (code evidence): the storage-sizing loop of
SurfMlpFeatureMap::new assigns `feature_vectors[feature_id] = ...` into the
length-0 vector returned by Vec::with_capacity, which is an out-of-bounds
panic as soon as the pool size is nonzero — the loop can never produce the
claimed per-feature storage. -/
theorem claim_C10_storage_panics (dim : Nat → Nat) (n : Nat) (hn : 0 < n) :
    newStorageLoop dim n = none := by
  obtain ⟨m, rfl⟩ : ∃ m, n = m + 1 := ⟨n - 1, by omega⟩
  unfold newStorageLoop vecWithCapacity
  rw [List.range_succ_eq_map]
  simp [List.foldlM_cons, vecSetChecked]

/-- Claim C10 witness: pool size 1 already panics. -/
theorem claim_C10_storage_panics_witness : newStorageLoop (fun _ => 32) 1 = none :=
  claim_C10_storage_panics (fun _ => 32) 1 (by decide)

theorem sweepF_step_zero_none (lim : Nat) :
    ∀ fuel v, v ≤ lim → sweepF 0 lim fuel v = none := by
  intro fuel
  induction fuel with
  | zero => intro v _; rfl
  | succ n ih =>
    intro v hv
    simp only [sweepF, if_pos hv, Nat.add_zero, ih v hv, Option.map_none']

theorem sweptFrom_nil {lo step bound : Nat} (h : bound < lo) :
    sweptFrom lo step bound = [] := by
  unfold sweptFrom countSteps
  rw [if_pos h]
  rfl

theorem sweptFrom_cons {lo step bound : Nat} (hlo : lo ≤ bound) (hs : 0 < step) :
    sweptFrom lo step bound = lo :: sweptFrom (lo + step) step bound := by
  unfold sweptFrom countSteps
  rw [if_neg (by omega)]
  by_cases h2 : bound < lo + step
  · rw [if_pos h2]
    have hz : (bound - lo) / step = 0 := Nat.div_eq_of_lt (by omega)
    rw [hz]
    simp [List.range_succ]
  · rw [if_neg h2]
    have hsub : bound - lo = (bound - (lo + step)) + step := by omega
    rw [hsub, Nat.add_div_right _ hs, List.range_succ_eq_map]
    simp only [List.map_cons, Nat.mul_zero, Nat.add_zero, List.map_map]
    refine congrArg (lo :: ·) (List.map_congr_left fun i _ => ?_)
    simp [Function.comp, Nat.mul_succ]
    omega

theorem sweepF_eq_sweptFrom (step lim : Nat) :
    ∀ fuel v l, sweepF step lim fuel v = some l → l = sweptFrom v step lim := by
  intro fuel
  induction fuel with
  | zero => intro v l h; simp [sweepF] at h
  | succ n ih =>
    intro v l h
    by_cases hv : v ≤ lim
    · rcases Nat.eq_zero_or_pos step with hs | hs
      · subst hs
        rw [sweepF_step_zero_none lim (n + 1) v hv] at h
        exact absurd h (by simp)
      · simp only [sweepF, if_pos hv] at h
        rcases Option.map_eq_some'.mp h with ⟨l2, hl2, rfl⟩
        rw [ih (v + step) l2 hl2]
        exact (sweptFrom_cons hv hs).symm
    · simp only [sweepF, if_neg hv] at h
      obtain rfl : ([] : List Nat) = l := Option.some_inj.mp h
      exact (sweptFrom_nil (by omega)).symm

theorem collectF_eq (p : FeaturePool) (fuel w h ncr ncc : Nat) (l : List Feature)
    (hl : collectFeaturesF p fuel w h ncr ncc = some l) :
    l = specPlacements p w h ncr ncc := by
  unfold collectFeaturesF at hl
  rcases Option.bind_eq_some.mp hl with ⟨ys, hys, hl2⟩
  rcases Option.bind_eq_some.mp hl2 with ⟨xs, hxs, hpure⟩
  obtain rfl := Option.some_inj.mp hpure
  rw [sweepF_eq_sweptFrom _ _ _ _ _ hys, sweepF_eq_sweptFrom _ _ _ _ _ hxs]
  rfl

theorem acceptH_of_conds {p : FeaturePool} {f : PatchFormat} {h : Nat}
    (hc1 : ¬(h % f.numCellPerCol ≠ 0 ∨ h % f.height ≠ 0))
    (hc2 : ¬(h / f.height * f.width % f.numCellPerRow ≠ 0 ∨
             h / f.height * f.width < p.patchMinWidth ∨
             h / f.height * f.width > p.sampleWidth)) :
    acceptH p f h = true := by
  push_neg at hc1 hc2
  simp [acceptH, hc1.1, hc1.2, hc2.1, hc2.2.1, hc2.2.2]

theorem hSweepF_accept_step_zero_none (p : FeaturePool) (f : PatchFormat) (h : Nat)
    (hstep : p.patchSizeIncStep = 0) (hh : h ≤ p.sampleHeight)
    (hc1 : ¬(h % f.numCellPerCol ≠ 0 ∨ h % f.height ≠ 0))
    (hc2 : ¬(h / f.height * f.width % f.numCellPerRow ≠ 0 ∨
             h / f.height * f.width < p.patchMinWidth ∨
             h / f.height * f.width > p.sampleWidth)) :
    ∀ fuel, hSweepF p f fuel h = none := by
  intro fuel
  induction fuel with
  | zero => rfl
  | succ n ih =>
    simp only [hSweepF, if_pos hh, if_neg hc1, if_neg hc2, hstep, Nat.add_zero, ih]
    cases hcf : collectFeaturesF p (n + 1) (h / f.height * f.width) h
        f.numCellPerRow f.numCellPerCol <;> simp [hcf]

theorem specSweepHFrom_cons (p : FeaturePool) (f : PatchFormat) (h : Nat)
    (hh : h ≤ p.sampleHeight) (hs : 0 < p.patchSizeIncStep)
    (hacc : acceptH p f h = true) :
    specSweepHFrom p f h =
      specPlacements p (h / f.height * f.width) h f.numCellPerRow f.numCellPerCol ++
        specSweepHFrom p f (h + p.patchSizeIncStep) := by
  unfold specSweepHFrom
  rw [sweptFrom_cons hh hs]
  simp [List.filter_cons, hacc]

theorem hSweepF_eq (p : FeaturePool) (f : PatchFormat) :
    ∀ fuel h l, hSweepF p f fuel h = some l → l = specSweepHFrom p f h := by
  intro fuel
  induction fuel with
  | zero => intro h l hl; simp [hSweepF] at hl
  | succ n ih =>
    intro h l hl
    by_cases hh : h ≤ p.sampleHeight
    · by_cases hc1 : (h % f.numCellPerCol ≠ 0 ∨ h % f.height ≠ 0)
      · simp only [hSweepF, if_pos hh, if_pos hc1] at hl
        exact ih h l hl
      · by_cases hc2 : (h / f.height * f.width % f.numCellPerRow ≠ 0 ∨
            h / f.height * f.width < p.patchMinWidth ∨
            h / f.height * f.width > p.sampleWidth)
        · simp only [hSweepF, if_pos hh, if_neg hc1, if_pos hc2] at hl
          exact ih h l hl
        · simp only [hSweepF, if_pos hh, if_neg hc1, if_neg hc2] at hl
          rcases Option.bind_eq_some.mp hl with ⟨fs, hfs, hl2⟩
          rcases Option.bind_eq_some.mp hl2 with ⟨rest, hrest, hpure⟩
          obtain rfl := Option.some_inj.mp hpure
          rcases Nat.eq_zero_or_pos p.patchSizeIncStep with hs | hs
          · rw [hs, Nat.add_zero] at hrest
            rw [hSweepF_accept_step_zero_none p f h hs hh hc1 hc2 n] at hrest
            exact absurd hrest (by simp)
          · rw [collectF_eq p _ _ _ _ _ _ hfs, ih _ _ hrest,
              specSweepHFrom_cons p f h hh hs (acceptH_of_conds hc1 hc2)]
    · simp only [hSweepF, if_neg hh] at hl
      obtain rfl := Option.some_inj.mp hl
      unfold specSweepHFrom
      rw [sweptFrom_nil (by omega)]
      rfl

theorem acceptW_of_conds {p : FeaturePool} {f : PatchFormat} {w : Nat}
    (hc1 : ¬(w % f.numCellPerRow ≠ 0 ∨ w % f.width ≠ 0))
    (hc2 : ¬(w / f.width * f.height % f.numCellPerCol ≠ 0 ∨
             w / f.width * f.height < p.patchMinHeight ∨
             w / f.width * f.height > p.sampleHeight)) :
    acceptW p f w = true := by
  push_neg at hc1 hc2
  simp [acceptW, hc1.1, hc1.2, hc2.1, hc2.2.1, hc2.2.2]

theorem wSweepF_accept_step_zero_none (p : FeaturePool) (f : PatchFormat) (w : Nat)
    (hstep : p.patchSizeIncStep = 0) (hw : w ≤ p.sampleWidth)
    (hc1 : ¬(w % f.numCellPerRow ≠ 0 ∨ w % f.width ≠ 0))
    (hc2 : ¬(w / f.width * f.height % f.numCellPerCol ≠ 0 ∨
             w / f.width * f.height < p.patchMinHeight ∨
             w / f.width * f.height > p.sampleHeight)) :
    ∀ fuel, wSweepF p f fuel w = none := by
  intro fuel
  induction fuel with
  | zero => rfl
  | succ n ih =>
    simp only [wSweepF, if_pos hw, if_neg hc1, if_neg hc2, hstep, Nat.add_zero, ih]
    cases hcf : collectFeaturesF p (n + 1) w (w / f.width * f.height)
        f.numCellPerRow f.numCellPerCol <;> simp [hcf]

theorem specSweepWFrom_cons (p : FeaturePool) (f : PatchFormat) (w : Nat)
    (hw : w ≤ p.sampleWidth) (hs : 0 < p.patchSizeIncStep)
    (hacc : acceptW p f w = true) :
    specSweepWFrom p f w =
      specPlacements p w (w / f.width * f.height) f.numCellPerRow f.numCellPerCol ++
        specSweepWFrom p f (w + p.patchSizeIncStep) := by
  unfold specSweepWFrom
  rw [sweptFrom_cons hw hs]
  simp [List.filter_cons, hacc]

theorem wSweepF_eq (p : FeaturePool) (f : PatchFormat) :
    ∀ fuel w l, wSweepF p f fuel w = some l → l = specSweepWFrom p f w := by
  intro fuel
  induction fuel with
  | zero => intro w l hl; simp [wSweepF] at hl
  | succ n ih =>
    intro w l hl
    by_cases hw : w ≤ p.sampleWidth
    · by_cases hc1 : (w % f.numCellPerRow ≠ 0 ∨ w % f.width ≠ 0)
      · simp only [wSweepF, if_pos hw, if_pos hc1] at hl
        exact ih w l hl
      · by_cases hc2 : (w / f.width * f.height % f.numCellPerCol ≠ 0 ∨
            w / f.width * f.height < p.patchMinHeight ∨
            w / f.width * f.height > p.sampleHeight)
        · simp only [wSweepF, if_pos hw, if_neg hc1, if_pos hc2] at hl
          exact ih w l hl
        · simp only [wSweepF, if_pos hw, if_neg hc1, if_neg hc2] at hl
          rcases Option.bind_eq_some.mp hl with ⟨fs, hfs, hl2⟩
          rcases Option.bind_eq_some.mp hl2 with ⟨rest, hrest, hpure⟩
          obtain rfl := Option.some_inj.mp hpure
          rcases Nat.eq_zero_or_pos p.patchSizeIncStep with hs | hs
          · rw [hs, Nat.add_zero] at hrest
            rw [wSweepF_accept_step_zero_none p f w hs hw hc1 hc2 n] at hrest
            exact absurd hrest (by simp)
          · rw [collectF_eq p _ _ _ _ _ _ hfs, ih _ _ hrest,
              specSweepWFrom_cons p f w hw hs (acceptW_of_conds hc1 hc2)]
    · simp only [wSweepF, if_neg hw] at hl
      obtain rfl := Option.some_inj.mp hl
      unfold specSweepWFrom
      rw [sweptFrom_nil (by omega)]
      rfl

theorem formatsFold_eq (sweep : PatchFormat → Option (List Feature))
    (g : PatchFormat → List Feature)
    (H : ∀ f l, sweep f = some l → l = g f) :
    ∀ fs L, formatsFold sweep fs = some L → L = fs.flatMap g := by
  intro fs
  induction fs with
  | nil => intro L hL; obtain rfl := Option.some_inj.mp hL; rfl
  | cons f rest ih =>
    intro L hL
    simp only [formatsFold] at hL
    rcases Option.bind_eq_some.mp hL with ⟨a, ha, hL2⟩
    rcases Option.bind_eq_some.mp hL2 with ⟨b, hb, hpure⟩
    obtain rfl := Option.some_inj.mp hpure
    rw [H f a ha, ih b hb]
    rfl

/-- Claim C2: whenever create() terminates, the produced catalog is ordered
exactly as: formats in insertion order; within a format, accepted sizes in
ascending sweep order along the primary axis (height when
sampleHeight - patchMinHeight <= sampleWidth - patchMinWidth, width
otherwise); within a size, y ascending by patchMoveStepY and, innermost,
x ascending by patchMoveStepX — i.e. the catalog equals specCatalog,
appended to the features already present. -/
theorem claim_C2_catalog_order (fuel : Nat) (p q : FeaturePool)
    (hq : createF fuel p = some q) :
    q.features = p.features ++ specCatalog p := by
  unfold createF at hq
  unfold specCatalog
  by_cases hbr : p.sampleHeight - p.patchMinHeight ≤ p.sampleWidth - p.patchMinWidth
  · rw [if_pos hbr] at hq
    rw [if_pos hbr]
    rcases Option.map_eq_some'.mp hq with ⟨l, hl, rfl⟩
    rw [formatsFold_eq _ _ (fun f l h => hSweepF_eq p f fuel p.patchMinHeight l h) _ _ hl]
  · rw [if_neg hbr] at hq
    rw [if_neg hbr]
    rcases Option.map_eq_some'.mp hq with ⟨l, hl, rfl⟩
    rw [formatsFold_eq _ _ (fun f l h => wSweepF_eq p f fuel p.patchMinWidth l h) _ _ hl]

/-- Claim C2 witness: a concrete terminating configuration. -/
theorem claim_C2_catalog_order_witness :
    egRes.features = egPool.features ++ specCatalog egPool :=
  claim_C2_catalog_order 32 egPool egRes (by decide)


theorem wrb_in {d : Nat → Int} {o len : Nat} {f : Nat → Int} {idx : Nat}
    (h1 : o ≤ idx) (h2 : idx < o + len) : wrb d o len f idx = f (idx - o) := by
  simp [wrb, h1, h2]

theorem wrb_out {d : Nat → Int} {o len : Nat} {f : Nat → Int} {idx : Nat}
    (h : ¬(o ≤ idx ∧ idx < o + len)) : wrb d o len f idx = d idx := by
  simp [wrb]
  intro h1 h2
  exact absurd ⟨h1, h2⟩ h

theorem row_disjoint {k r c w : Nat} (hc : c < w) (hne : k ≠ r) :
    ¬(k * w ≤ r * w + c ∧ r * w + c < k * w + w) := by
  rintro ⟨h1, h2⟩
  rcases Nat.lt_or_ge k r with hkr | hkr
  · have : k * w + w ≤ r * w := by
      have := Nat.mul_le_mul_right w (by omega : k + 1 ≤ r)
      simpa [Nat.add_mul] using this
    omega
  · have hrk : r < k := by omega
    have : (r + 1) * w ≤ k * w := Nat.mul_le_mul_right w (by omega)
    simp [Nat.add_mul] at this
    omega

theorem gradXRowStep_in (I : Nat → Int) (w r : Nat) (d : Nat → Int) (c : Nat)
    (hw : 2 ≤ w) (hc : c < w) :
    gradXRowStep I w r d (r * w + c) =
      if c = 0 then (I (r * w + 1) - I (r * w)) * 2
      else if c = w - 1 then (I (r * w + (w - 1)) - I (r * w + (w - 1) - 1)) * 2
      else I (r * w + c + 1) - I (r * w + c - 1) := by
  simp only [gradXRowStep]
  by_cases h1 : c = w - 1
  · rw [wrb_in (by omega) (by omega)]
    rw [if_neg (by omega), if_pos h1]
  · rw [wrb_out (by omega)]
    by_cases h0 : c = 0
    · rw [wrb_out (by omega), wrb_in (by omega) (by omega), if_pos h0]
    · rw [wrb_in (by omega) (by omega), if_neg h0, if_neg h1]
      have e1 : r * w + 2 + (r * w + c - (r * w + 1)) = r * w + c + 1 := by omega
      have e2 : r * w + (r * w + c - (r * w + 1)) = r * w + c - 1 := by omega
      rw [e1, e2]

theorem gradXRowStep_out (I : Nat → Int) (w k : Nat) (d : Nat → Int) (idx : Nat)
    (hw : 2 ≤ w) (h : ¬(k * w ≤ idx ∧ idx < k * w + w)) :
    gradXRowStep I w k d idx = d idx := by
  simp only [gradXRowStep]
  rw [wrb_out (by omega), wrb_out (by omega), wrb_out (by omega)]

theorem computeGradX_aux (I : Nat → Int) (w : Nat) (hw : 2 ≤ w) :
    ∀ (k r c : Nat) (d : Nat → Int), c < w →
      computeGradX I w (r + 1 + k) d (r * w + c) =
        (if c = 0 then (I (r * w + 1) - I (r * w)) * 2
         else if c = w - 1 then (I (r * w + (w - 1)) - I (r * w + (w - 1) - 1)) * 2
         else I (r * w + c + 1) - I (r * w + c - 1)) := by
  intro k
  induction k with
  | zero =>
    intro r c d hc
    unfold computeGradX
    rw [List.range_succ, List.foldl_append]
    simp only [List.foldl_cons, List.foldl_nil]
    exact gradXRowStep_in I w r _ c hw hc
  | succ k ih =>
    intro r c d hc
    have hsplit : r + 1 + (k + 1) = (r + 1 + k) + 1 := by omega
    unfold computeGradX
    rw [hsplit, List.range_succ, List.foldl_append]
    simp only [List.foldl_cons, List.foldl_nil]
    rw [gradXRowStep_out I w _ _ _ hw (row_disjoint hc (by omega))]
    exact ih r c d hc

theorem gradYFold_out (I : Nat → Int) (w : Nat) :
    ∀ (m : Nat) (d : Nat → Int) (idx : Nat), idx < w →
      ((List.range m).foldl (fun acc k =>
          wrb acc ((k + 1) * w) w
            (fun c => I ((k + 1 - 1) * w + 2 * w + c) - I ((k + 1 - 1) * w + c))) d) idx
        = d idx := by
  intro m
  induction m with
  | zero => intro d idx _; rfl
  | succ m ih =>
    intro d idx hidx
    rw [List.range_succ, List.foldl_append]
    simp only [List.foldl_cons, List.foldl_nil]
    rw [wrb_out (by
      have : w ≤ (m + 1) * w := Nat.le_mul_of_pos_left w (by omega)
      omega)]
    exact ih d idx hidx

theorem gradYFold_apply (I : Nat → Int) (w : Nat) :
    ∀ (m : Nat) (d : Nat → Int) (r c : Nat), c < w → 1 ≤ r → r < m + 1 →
      ((List.range m).foldl (fun acc k =>
          wrb acc ((k + 1) * w) w
            (fun c2 => I ((k + 1 - 1) * w + 2 * w + c2) - I ((k + 1 - 1) * w + c2))) d)
          (r * w + c)
        = I ((r - 1) * w + 2 * w + c) - I ((r - 1) * w + c) := by
  intro m
  induction m with
  | zero => intro d r c hc h1 h2; omega
  | succ m ih =>
    intro d r c hc h1 h2
    rw [List.range_succ, List.foldl_append]
    simp only [List.foldl_cons, List.foldl_nil]
    by_cases hrm : r = m + 1
    · subst hrm
      rw [wrb_in (by omega) (by omega)]
      have e : (m + 1) * w + c - (m + 1) * w = c := by omega
      rw [e]
    · rw [wrb_out (row_disjoint hc (by omega))]
      exact ih d r c hc h1 (by omega)

theorem computeGradY_apply (I : Nat → Int) (w h : Nat) (d : Nat → Int) (r c : Nat)
    (hh : 2 ≤ h) (hr : r < h) (hc : c < w) :
    computeGradY I w h d (r * w + c) =
      if r = 0 then (I (w + c) - I c) + (I (w + c) - I c)
      else if r = h - 1 then
        (I ((h - 1) * w + c) - I ((h - 1) * w - w + c)) +
          (I ((h - 1) * w + c) - I ((h - 1) * w - w + c))
      else I ((r - 1) * w + 2 * w + c) - I ((r - 1) * w + c) := by
  have hwpos : 0 < w := by omega
  have hwle : w ≤ (h - 1) * w := Nat.le_mul_of_pos_left w (by omega)
  simp only [computeGradY]
  by_cases hlast : r = h - 1
  · subst hlast
    rw [wrb_in (by omega) (by omega)]
    have e : (h - 1) * w + ((h - 1) * w + c - (h - 1) * w) = (h - 1) * w + c := by omega
    rw [e, wrb_in (by omega) (by omega)]
    have e2 : (h - 1) * w + c - (h - 1) * w = c := by omega
    rw [e2, if_neg (by omega), if_pos rfl]
  · have hrlt : r < h - 1 := by omega
    have hip : r * w + c < (h - 1) * w := by
      have : (r + 1) * w ≤ (h - 1) * w := Nat.mul_le_mul_right w (by omega)
      simp [Nat.add_mul] at this
      omega
    rw [wrb_out (by omega), wrb_out (by omega)]
    by_cases h0 : r = 0
    · subst h0
      simp only [Nat.zero_mul, Nat.zero_add]
      rw [gradYFold_out I w _ _ c hc]
      rw [wrb_in (by omega) (by omega)]
      simp only [Nat.sub_zero]
      rw [wrb_in (by omega) (by omega)]
      simp
    · rw [gradYFold_apply I w _ _ r c hc (by omega) (by omega)]
      rw [if_neg h0, if_neg hlast]

/-- Claim C4: for images with width, height >= 2, the gradient buffers hold
the boundary-doubled centered differences of the widened intensities, at row
stride w: gx doubled at columns 0 and w-1, centered in between; gy doubled at
rows 0 and h-1, centered in between. -/
theorem claim_C4_gradients (I : Nat → Int) (w h : Nat) (dx dy : Nat → Int) (r c : Nat)
    (hw : 2 ≤ w) (hh : 2 ≤ h) (hr : r < h) (hc : c < w) :
    (computeGradX I w h dx (r * w + c) =
      if c = 0 then 2 * (I (r * w + 1) - I (r * w))
      else if c = w - 1 then 2 * (I (r * w + (w - 1)) - I (r * w + (w - 2)))
      else I (r * w + (c + 1)) - I (r * w + (c - 1))) ∧
    (computeGradY I w h dy (r * w + c) =
      if r = 0 then 2 * (I (w + c) - I c)
      else if r = h - 1 then 2 * (I ((h - 1) * w + c) - I ((h - 2) * w + c))
      else I ((r + 1) * w + c) - I ((r - 1) * w + c)) := by
  constructor
  · obtain ⟨k, rfl⟩ : ∃ k, h = r + 1 + k := ⟨h - r - 1, by omega⟩
    rw [computeGradX_aux I w hw k r c dx hc]
    by_cases h0 : c = 0
    · simp [h0]
      ring
    · by_cases h1 : c = w - 1
      · simp [h0, h1]
        have e : r * w + (w - 1) - 1 = r * w + (w - 2) := by omega
        rw [e]
        ring_nf
      · simp [h0, h1]
        have e1 : r * w + c + 1 = r * w + (c + 1) := by omega
        have e2 : r * w + c - 1 = r * w + (c - 1) := by omega
        rw [e1, e2]
  · rw [computeGradY_apply I w h dy r c hh hr hc]
    by_cases h0 : r = 0
    · simp [h0]
      ring
    · by_cases h1 : r = h - 1
      · simp [h0, h1]
        have e : (h - 1) * w - w + c = (h - 2) * w + c := by
          obtain ⟨m, rfl⟩ : ∃ m, h = m + 2 := ⟨h - 2, by omega⟩
          have e1 : m + 2 - 1 = m + 1 := by omega
          have e2 : m + 2 - 2 = m := by omega
          rw [e1, e2, Nat.add_mul]
          omega
        rw [e]
        ring_nf
      · simp [h0, h1]
        have e : (r - 1) * w + 2 * w = (r + 1) * w := by
          obtain ⟨s, rfl⟩ : ∃ s, r = s + 1 := ⟨r - 1, by omega⟩
          have e1 : s + 1 - 1 = s := by omega
          rw [e1, Nat.add_mul, Nat.add_mul]
          omega
        rw [e]

/-- Claim C4 witness at pixel (1,0) of the 2x2 test image. -/
theorem claim_C4_gradients_witness :
    (computeGradX img0 2 2 (fun _ => 0) (1 * 2 + 0) =
      if (0 : Nat) = 0 then 2 * (img0 (1 * 2 + 1) - img0 (1 * 2))
      else if (0 : Nat) = 2 - 1 then
        2 * (img0 (1 * 2 + (2 - 1)) - img0 (1 * 2 + (2 - 2)))
      else img0 (1 * 2 + (0 + 1)) - img0 (1 * 2 + (0 - 1))) ∧
    (computeGradY img0 2 2 (fun _ => 0) (1 * 2 + 0) =
      if (1 : Nat) = 0 then 2 * (img0 (2 + 0) - img0 0)
      else if (1 : Nat) = 2 - 1 then
        2 * (img0 ((2 - 1) * 2 + 0) - img0 ((2 - 2) * 2 + 0))
      else img0 ((1 + 1) * 2 + 0) - img0 ((1 - 1) * 2 + 0)) :=
  claim_C4_gradients img0 2 2 (fun _ => 0) (fun _ => 0) 1 0
    (by decide) (by decide) (by decide) (by decide)

theorem mul_add_div_gen {k i L : Nat} (hL : 0 < L) (hi : i < L) : (k * L + i) / L = k := by
  have e : k * L + i = i + L * k := by ring
  rw [e, Nat.add_mul_div_left _ _ hL, Nat.div_eq_of_lt hi, Nat.zero_add]

theorem mul_add_mod_gen {k i L : Nat} (hi : i < L) : (k * L + i) % L = i := by
  have e : k * L + i = i + L * k := by ring
  rw [e, Nat.add_mul_mod_self_left, Nat.mod_eq_of_lt hi]

theorem rowpass_aux (L : Nat) (hL : 0 < L) (b : Nat → Int) :
    ∀ (k : Nat) (idx : Nat),
      ((List.range k).foldl (fun acc r =>
          wrb acc ((r + 1) * L) L
            (fun i => acc (r * L + i) + acc ((r + 1) * L + i))) b) idx
        = if idx < (k + 1) * L then
            ∑ r2 in Finset.range (idx / L + 1), b (r2 * L + idx % L)
          else b idx := by
  intro k
  induction k with
  | zero =>
    intro idx
    simp only [List.range_zero, List.foldl_nil, Nat.zero_add, Nat.one_mul]
    by_cases hidx : idx < L
    · rw [if_pos hidx, Nat.div_eq_of_lt hidx, Nat.mod_eq_of_lt hidx]
      simp
    · rw [if_neg hidx]
  | succ k ih =>
    intro idx
    rw [List.range_succ, List.foldl_append]
    simp only [List.foldl_cons, List.foldl_nil]
    by_cases hin : (k + 1) * L ≤ idx ∧ idx < (k + 1) * L + L
    · rw [wrb_in hin.1 hin.2]
      have hi : idx - (k + 1) * L < L := by omega
      have ekl : (k + 1) * L = k * L + L := by ring
      have ekl2 : (k + 1 + 1) * L = (k + 1) * L + L := by ring
      have em0 : idx % L = idx - (k + 1) * L := by
        conv_lhs => rw [show idx = (k + 1) * L + (idx - (k + 1) * L) by omega]
        rw [mul_add_mod_gen hi]
      have hd2 : idx / L = k + 1 := by
        conv_lhs => rw [show idx = (k + 1) * L + (idx - (k + 1) * L) by omega]
        exact mul_add_div_gen hL hi
      rw [ih (k * L + (idx - (k + 1) * L)), ih ((k + 1) * L + (idx - (k + 1) * L))]
      rw [if_pos (by omega), if_neg (by omega)]
      rw [mul_add_div_gen hL hi, mul_add_mod_gen hi]
      rw [if_pos (by omega), hd2, em0]
      conv_rhs => rw [Finset.sum_range_succ]
    · rw [wrb_out hin, ih idx]
      have ekl2 : (k + 1 + 1) * L = (k + 1) * L + L := by ring
      by_cases hlt : idx < (k + 1) * L
      · rw [if_pos hlt, if_pos (by omega)]
      · rw [if_neg hlt, if_neg (by omega)]

theorem integralRowPass_apply (w h : Nat) (b : Nat → Int) (r i : Nat)
    (hw : 0 < w) (hr : r < h) (hi : i < 8 * w) :
    integralRowPass w h b (r * (8 * w) + i)
      = ∑ r2 in Finset.range (r + 1), b (r2 * (8 * w) + i) := by
  have hL : 0 < 8 * w := by omega
  unfold integralRowPass
  rw [rowpass_aux (8 * w) hL b (h - 1) (r * (8 * w) + i)]
  have eh : (h - 1 + 1) * (8 * w) = h * (8 * w) := by
    congr 1
    omega
  have hrw : (r + 1) * (8 * w) ≤ h * (8 * w) := Nat.mul_le_mul_right _ (by omega)
  have hrw2 : (r + 1) * (8 * w) = r * (8 * w) + 8 * w := by ring
  rw [if_pos (by omega), mul_add_div_gen hL hi, mul_add_mod_gen hi]

theorem colrow_aux (o : Nat) (b : Nat → Int) :
    ∀ (k : Nat) (idx : Nat),
      ((List.range k).foldl (fun acc i =>
          wrb acc (o + (i + 1) * 8) 8
            (fun ch => acc (o + i * 8 + ch) + acc (o + (i + 1) * 8 + ch))) b) idx
        = if o ≤ idx ∧ idx < o + (k + 1) * 8 then
            ∑ c2 in Finset.range ((idx - o) / 8 + 1), b (o + c2 * 8 + (idx - o) % 8)
          else b idx := by
  intro k
  induction k with
  | zero =>
    intro idx
    simp only [List.range_zero, List.foldl_nil, Nat.zero_add, Nat.one_mul]
    by_cases hidx : o ≤ idx ∧ idx < o + 8
    · rw [if_pos hidx, Nat.div_eq_of_lt (by omega), Nat.mod_eq_of_lt (by omega)]
      simp
      congr 1
      omega
    · rw [if_neg hidx]
  | succ k ih =>
    intro idx
    rw [List.range_succ, List.foldl_append]
    simp only [List.foldl_cons, List.foldl_nil]
    have ekl : (k + 1) * 8 = k * 8 + 8 := by ring
    have ekl2 : (k + 1 + 1) * 8 = (k + 1) * 8 + 8 := by ring
    by_cases hin : o + (k + 1) * 8 ≤ idx ∧ idx < o + (k + 1) * 8 + 8
    · rw [wrb_in hin.1 hin.2]
      have hi : idx - (o + (k + 1) * 8) < 8 := by omega
      have em0 : (idx - o) % 8 = idx - (o + (k + 1) * 8) := by
        conv_lhs =>
          rw [show idx - o = (k + 1) * 8 + (idx - (o + (k + 1) * 8)) by omega]
        rw [mul_add_mod_gen hi]
      have hd2 : (idx - o) / 8 = k + 1 := by
        conv_lhs =>
          rw [show idx - o = (k + 1) * 8 + (idx - (o + (k + 1) * 8)) by omega]
        exact mul_add_div_gen (by omega) hi
      rw [ih (o + k * 8 + (idx - (o + (k + 1) * 8))),
        ih (o + (k + 1) * 8 + (idx - (o + (k + 1) * 8)))]
      rw [if_pos (by omega), if_neg (by omega)]
      have ed : (o + k * 8 + (idx - (o + (k + 1) * 8)) - o) / 8 = k := by
        rw [show o + k * 8 + (idx - (o + (k + 1) * 8)) - o
              = k * 8 + (idx - (o + (k + 1) * 8)) by omega]
        exact mul_add_div_gen (by omega) hi
      have em : (o + k * 8 + (idx - (o + (k + 1) * 8)) - o) % 8
          = idx - (o + (k + 1) * 8) := by
        rw [show o + k * 8 + (idx - (o + (k + 1) * 8)) - o
              = k * 8 + (idx - (o + (k + 1) * 8)) by omega]
        exact mul_add_mod_gen hi
      rw [ed, em, if_pos (by omega), hd2, em0]
      conv_rhs => rw [Finset.sum_range_succ]
    · rw [wrb_out hin, ih idx]
      by_cases hlt : o ≤ idx ∧ idx < o + (k + 1) * 8
      · rw [if_pos hlt, if_pos (by omega)]
      · rw [if_neg hlt, if_neg (by omega)]

theorem cumulativeRow_apply (w o : Nat) (b : Nat → Int) (c ch : Nat)
    (hw : 0 < w) (hc : c < w) (hch : ch < 8) :
    cumulativeRow w o b (o + c * 8 + ch)
      = ∑ c2 in Finset.range (c + 1), b (o + c2 * 8 + ch) := by
  unfold cumulativeRow
  have e8 : 8 * w / 8 = w := by
    rw [Nat.mul_div_cancel_left w (by norm_num)]
  rw [e8, colrow_aux o b (w - 1) (o + c * 8 + ch)]
  have ew : (w - 1 + 1) * 8 = w * 8 := by
    congr 1
    omega
  have hcw : (c + 1) * 8 ≤ w * 8 := Nat.mul_le_mul_right _ (by omega)
  have hcw2 : (c + 1) * 8 = c * 8 + 8 := by ring
  have ed : (o + c * 8 + ch - o) / 8 = c := by
    rw [show o + c * 8 + ch - o = c * 8 + ch by omega]
    exact mul_add_div_gen (by omega) hch
  have em : (o + c * 8 + ch - o) % 8 = ch := by
    rw [show o + c * 8 + ch - o = c * 8 + ch by omega]
    exact mul_add_mod_gen hch
  rw [if_pos (by omega), ed, em]

theorem cumulativeRow_frame (w o : Nat) (b : Nat → Int) (idx : Nat)
    (hw : 0 < w) (h : ¬(o ≤ idx ∧ idx < o + 8 * w)) :
    cumulativeRow w o b idx = b idx := by
  unfold cumulativeRow
  have e8 : 8 * w / 8 = w := by
    rw [Nat.mul_div_cancel_left w (by norm_num)]
  rw [e8, colrow_aux o b (w - 1) idx]
  have ew : (w - 1 + 1) * 8 = 8 * w := by
    have : w - 1 + 1 = w := by omega
    rw [this]
    ring
  rw [if_neg (by omega)]

theorem row_disjoint8 {k r j w : Nat} (hj : j < 8 * w) (hne : k ≠ r) :
    ¬(k * (8 * w) ≤ r * (8 * w) + j ∧ r * (8 * w) + j < k * (8 * w) + 8 * w) := by
  rintro ⟨h1, h2⟩
  rcases Nat.lt_or_ge k r with hkr | hkr
  · have : k * (8 * w) + 8 * w ≤ r * (8 * w) := by
      have := Nat.mul_le_mul_right (8 * w) (by omega : k + 1 ≤ r)
      simpa [Nat.add_mul] using this
    omega
  · have : (r + 1) * (8 * w) ≤ k * (8 * w) := Nat.mul_le_mul_right _ (by omega)
    simp [Nat.add_mul] at this
    omega

theorem colpass_frame (w : Nat) (hw : 0 < w) :
    ∀ (m : Nat) (b : Nat → Int) (r j : Nat), j < 8 * w → m ≤ r →
      ((List.range m).foldl (fun acc r2 => cumulativeRow w (r2 * (8 * w)) acc) b)
          (r * (8 * w) + j)
        = b (r * (8 * w) + j) := by
  intro m
  induction m with
  | zero => intro b r j _ _; rfl
  | succ m ih =>
    intro b r j hj hm
    rw [List.range_succ, List.foldl_append]
    simp only [List.foldl_cons, List.foldl_nil]
    rw [cumulativeRow_frame w _ _ _ hw (row_disjoint8 hj (by omega))]
    exact ih b r j hj (by omega)

theorem colpass_apply (w : Nat) (hw : 0 < w) :
    ∀ (k r : Nat) (b : Nat → Int) (c ch : Nat), c < w → ch < 8 →
      ((List.range (r + 1 + k)).foldl
          (fun acc r2 => cumulativeRow w (r2 * (8 * w)) acc) b)
          (r * (8 * w) + (c * 8 + ch))
        = ∑ c2 in Finset.range (c + 1), b (r * (8 * w) + c2 * 8 + ch) := by
  intro k
  induction k with
  | zero =>
    intro r b c ch hc hch
    rw [List.range_succ, List.foldl_append]
    simp only [List.foldl_cons, List.foldl_nil]
    have e : r * (8 * w) + (c * 8 + ch) = r * (8 * w) + c * 8 + ch := by omega
    rw [e, cumulativeRow_apply w _ _ c ch hw hc hch]
    refine Finset.sum_congr rfl fun c2 hc2 => ?_
    have hc2w : c2 * 8 + ch < 8 * w := by
      have h1 : c2 < w := by
        have := Finset.mem_range.mp hc2
        omega
      have h2 : (c2 + 1) * 8 ≤ w * 8 := Nat.mul_le_mul_right _ (by omega)
      have h3 : (c2 + 1) * 8 = c2 * 8 + 8 := by ring
      omega
    rw [show r * (8 * w) + c2 * 8 + ch = r * (8 * w) + (c2 * 8 + ch) by omega]
    rw [colpass_frame w hw r b r (c2 * 8 + ch) hc2w (by omega)]
  | succ k ih =>
    intro r b c ch hc hch
    have hsplit : r + 1 + (k + 1) = (r + 1 + k) + 1 := by omega
    rw [hsplit, List.range_succ, List.foldl_append]
    simp only [List.foldl_cons, List.foldl_nil]
    have hj : c * 8 + ch < 8 * w := by
      have h2 : (c + 1) * 8 ≤ w * 8 := Nat.mul_le_mul_right _ (by omega)
      have h3 : (c + 1) * 8 = c * 8 + 8 := by ring
      omega
    rw [cumulativeRow_frame w _ _ _ hw (row_disjoint8 hj (by omega))]
    exact ih r b c ch hc hch

theorem integralImage_apply (w h : Nat) (b : Nat → Int) (r c ch : Nat)
    (hw : 0 < w) (hr : r < h) (hc : c < w) (hch : ch < 8) :
    integralImage w h b (r * (8 * w) + c * 8 + ch)
      = ∑ r2 in Finset.range (r + 1), ∑ c2 in Finset.range (c + 1),
          b (r2 * (8 * w) + c2 * 8 + ch) := by
  unfold integralImage integralColPass
  obtain ⟨k, hk⟩ : ∃ k, h = r + 1 + k := ⟨h - r - 1, by omega⟩
  rw [hk]
  rw [show r * (8 * w) + c * 8 + ch = r * (8 * w) + (c * 8 + ch) by omega]
  rw [colpass_apply w hw k r _ c ch hc hch]
  have step : ∀ c2 ∈ Finset.range (c + 1),
      integralRowPass w (r + 1 + k) b (r * (8 * w) + c2 * 8 + ch)
        = ∑ r2 in Finset.range (r + 1), b (r2 * (8 * w) + c2 * 8 + ch) := by
    intro c2 hc2
    have h1 : c2 < w := by
      have := Finset.mem_range.mp hc2
      omega
    have hc2w : c2 * 8 + ch < 8 * w := by
      have h2 : (c2 + 1) * 8 ≤ w * 8 := Nat.mul_le_mul_right _ (by omega)
      have h3 : (c2 + 1) * 8 = c2 * 8 + 8 := by ring
      omega
    rw [show r * (8 * w) + c2 * 8 + ch = r * (8 * w) + (c2 * 8 + ch) by omega]
    rw [integralRowPass_apply w (r + 1 + k) b r (c2 * 8 + ch) hw (by omega) hc2w]
    refine Finset.sum_congr rfl fun r2 _ => ?_
    congr 1
    omega
  rw [Finset.sum_congr rfl step]
  exact Finset.sum_comm

theorem fourCorner (M : Nat → Nat → Int) (r1 r2 c1 c2 : Nat)
    (hr1 : 1 ≤ r1) (hr12 : r1 ≤ r2) (hc1 : 1 ≤ c1) (hc12 : c1 ≤ c2) :
    (∑ a in Finset.range (r2 + 1), ∑ b in Finset.range (c2 + 1), M a b)
      + (∑ a in Finset.range (r1 - 1 + 1), ∑ b in Finset.range (c1 - 1 + 1), M a b)
      - (∑ a in Finset.range (r1 - 1 + 1), ∑ b in Finset.range (c2 + 1), M a b)
      - (∑ a in Finset.range (r2 + 1), ∑ b in Finset.range (c1 - 1 + 1), M a b)
    = ∑ a in Finset.Icc r1 r2, ∑ b in Finset.Icc c1 c2, M a b := by
  rw [show r1 - 1 + 1 = r1 by omega, show c1 - 1 + 1 = c1 by omega]
  have h1 : ∑ a in Finset.Icc r1 r2, ∑ b in Finset.Icc c1 c2, M a b
      = ∑ a in Finset.Ico r1 (r2 + 1),
          (∑ b in Finset.range (c2 + 1), M a b - ∑ b in Finset.range c1, M a b) := by
    rw [← Nat.Ico_succ_right]
    refine Finset.sum_congr rfl fun a _ => ?_
    rw [← Nat.Ico_succ_right, Finset.sum_Ico_eq_sub _ (by omega)]
  rw [h1, Finset.sum_sub_distrib,
    Finset.sum_Ico_eq_sub _ (by omega : r1 ≤ r2 + 1),
    Finset.sum_Ico_eq_sub _ (by omega : r1 ≤ r2 + 1)]
  abel

/-- Claim C3: after compute returns, the integral buffer is the per-channel
2-D inclusive prefix sum of the masked channel values, and (for rectangles
with interior upper-left corner) the four-corner inclusion-exclusion over the
buffer equals the brute-force double-loop sum of masked values over the
rectangle. -/
theorem claim_C3_integral (e : Engine) (px : Nat → Nat) (w h : Nat)
    (hw : 0 < w) (hh : 0 < h) :
    (∀ r c ch, r < h → c < w → ch < 8 →
      (e.computeRun px w h).1.intImg (r * (8 * w) + c * 8 + ch)
        = ∑ r2 in Finset.range (r + 1), ∑ c2 in Finset.range (c + 1),
            maskedStage (e.reshape w h) px w h (r2 * (8 * w) + c2 * 8 + ch)) ∧
    (∀ r1 r2 c1 c2 ch, 1 ≤ r1 → r1 ≤ r2 → r2 < h → 1 ≤ c1 → c1 ≤ c2 → c2 < w →
        ch < 8 →
      (e.computeRun px w h).1.intImg (r2 * (8 * w) + c2 * 8 + ch)
          + (e.computeRun px w h).1.intImg ((r1 - 1) * (8 * w) + (c1 - 1) * 8 + ch)
          - (e.computeRun px w h).1.intImg ((r1 - 1) * (8 * w) + c2 * 8 + ch)
          - (e.computeRun px w h).1.intImg (r2 * (8 * w) + (c1 - 1) * 8 + ch)
        = ∑ r3 in Finset.Icc r1 r2, ∑ c3 in Finset.Icc c1 c2,
            maskedStage (e.reshape w h) px w h (r3 * (8 * w) + c3 * 8 + ch)) := by
  have hni : (e.computeRun px w h).1.intImg
      = integralImage w h (maskedStage (e.reshape w h) px w h) := by
    unfold Engine.computeRun
    rw [if_neg (by omega)]
    rfl
  constructor
  · intro r c ch hr hc hch
    rw [hni]
    exact integralImage_apply w h _ r c ch hw hr hc hch
  · intro r1 r2 c1 c2 ch h1 h2 h3 h4 h5 h6 hch
    rw [hni]
    rw [integralImage_apply w h _ r2 c2 ch hw h3 h6 hch,
      integralImage_apply w h _ (r1 - 1) (c1 - 1) ch hw (by omega) (by omega) hch,
      integralImage_apply w h _ (r1 - 1) c2 ch hw (by omega) h6 hch,
      integralImage_apply w h _ r2 (c1 - 1) ch hw h3 (by omega) hch]
    exact fourCorner
      (fun a b2 => maskedStage (e.reshape w h) px w h (a * (8 * w) + b2 * 8 + ch))
      r1 r2 c1 c2 h1 h2 h4 h5

/-- Claim C3 witness on the 2x2 test image, at pixel (1,1), channel 0, and
the 1x1 rectangle at (1,1). -/
theorem claim_C3_integral_witness :
    ((e0.computeRun px0 2 2).1.intImg (1 * (8 * 2) + 1 * 8 + 0)
      = ∑ r2 in Finset.range (1 + 1), ∑ c2 in Finset.range (1 + 1),
          maskedStage (e0.reshape 2 2) px0 2 2 (r2 * (8 * 2) + c2 * 8 + 0)) ∧
    ((e0.computeRun px0 2 2).1.intImg (1 * (8 * 2) + 1 * 8 + 0)
        + (e0.computeRun px0 2 2).1.intImg ((1 - 1) * (8 * 2) + (1 - 1) * 8 + 0)
        - (e0.computeRun px0 2 2).1.intImg ((1 - 1) * (8 * 2) + 1 * 8 + 0)
        - (e0.computeRun px0 2 2).1.intImg (1 * (8 * 2) + (1 - 1) * 8 + 0)
      = ∑ r3 in Finset.Icc 1 1, ∑ c3 in Finset.Icc 1 1,
          maskedStage (e0.reshape 2 2) px0 2 2 (r3 * (8 * 2) + c3 * 8 + 0)) :=
  ⟨(claim_C3_integral e0 px0 2 2 (by decide) (by decide)).1 1 1 0
      (by decide) (by decide) (by decide),
   (claim_C3_integral e0 px0 2 2 (by decide) (by decide)).2 1 1 1 1 0
      (by decide) (by decide) (by decide) (by decide) (by decide) (by decide)
      (by decide)⟩

theorem foldlM_range_some (f : Nat → Option Unit) :
    ∀ n, (∀ i, i < n → f i = some ()) →
      (List.range n).foldlM (fun _ i => f i) () = some () := by
  intro n
  induction n with
  | zero => intro _; rfl
  | succ m ih =>
    intro H
    rw [List.range_succ, List.foldlM_append, ih (fun i hi => H i (by omega))]
    simp [H m (by omega)]

theorem forRange_eq_some (n : Nat) (f : Nat → Option Unit)
    (H : ∀ i, i < n → f i = some ()) : forRange n f = some () := by
  unfold forRange
  exact foldlM_range_some f n H

theorem checkIdx_some {i size : Nat} (h : i < size) : checkIdx i size = some () := by
  unfold checkIdx
  rw [if_pos h]

theorem checkRange_some {off len size : Nat} (h : off + len ≤ size) :
    checkRange off len size = some () := by
  unfold checkRange
  rw [if_pos h]

theorem checkIdxI_some {i : Int} {size : Nat} (h : 0 ≤ i ∧ i < size) :
    checkIdxI i size = some () := by
  unfold checkIdxI
  rw [if_pos h]

theorem checkRangeI_some {off : Int} {len size : Nat} (h : 0 ≤ off ∧ off + len ≤ size) :
    checkRangeI off len size = some () := by
  unfold checkRangeI
  rw [if_pos h]

theorem cSub_some {a b : Nat} (h : b ≤ a) : cSub a b = some (a - b) := by
  unfold cSub
  rw [if_pos h]

theorem checkCopy_some (w h : Nat) : checkCopy w h = some () := by
  unfold checkCopy
  rw [checkRange_some (by omega), checkRange_some (by omega)]
  rfl

theorem checkGradX_some (w h : Nat) (hw : 2 ≤ w) : checkGradX w h = some () := by
  unfold checkGradX
  rw [cSub_some (show 2 ≤ w by omega)]
  simp only [Option.some_bind]
  apply forRange_eq_some
  intro r hr
  have key : r * w + w ≤ w * h := by
    have h1 : (r + 1) * w ≤ h * w := Nat.mul_le_mul_right w (by omega)
    have h2 : (r + 1) * w = r * w + w := by ring
    have h3 : h * w = w * h := Nat.mul_comm h w
    omega
  have c1 : checkIdx (r * w + 1) (8 * (w * h)) = some () := checkIdx_some (by omega)
  have c2 : checkIdx (r * w) (8 * (w * h)) = some () := checkIdx_some (by omega)
  have c3 : checkIdx (r * w) (w * h) = some () := checkIdx_some (by omega)
  have c4 : checkRange (r * w + 2) (w - 2) (8 * (w * h)) = some () :=
    checkRange_some (by omega)
  have c5 : checkRange (r * w) (w - 2) (8 * (w * h)) = some () :=
    checkRange_some (by omega)
  have c6 : checkRange (r * w + 1) (w - 2) (w * h) = some () :=
    checkRange_some (by omega)
  have c7 : cSub w 1 = some (w - 1) := cSub_some (by omega)
  have c8 : checkIdx (r * w + (w - 1)) (8 * (w * h)) = some () :=
    checkIdx_some (by omega)
  have c9 : checkIdxI (((r * w : Nat) : Int) + ((w - 1 : Nat) : Int) - 1)
      (8 * (w * h)) = some () := checkIdxI_some (by constructor <;> omega)
  have c10 : checkIdx (r * w + (w - 1)) (w * h) = some () := checkIdx_some (by omega)
  simp only [c1, c2, c3, c4, c5, c6, c7, c8, c9, c10, Option.bind_eq_bind,
    Option.some_bind]

theorem bind_forRange_someB {β : Type} (n : Nat) (F : Nat → Option Unit)
    (rest : Unit → Option β) (b : β)
    (H : ∀ i, i < n → F i = some ()) (Hrest : rest () = some b) :
    (forRange n F).bind rest = some b := by
  rw [forRange_eq_some n F H]
  exact Hrest

theorem checkGradY_some (w h : Nat) (hw : 1 ≤ w) (hh : 2 ≤ h) :
    checkGradY w h = some () := by
  unfold checkGradY
  have hwle : w ≤ w * h := Nat.le_mul_of_pos_right w (by omega)
  have hlast : (h - 1) * w + w = w * h := by
    have e1 : (h - 1) * w + w = (h - 1 + 1) * w := by ring
    have e2 : h - 1 + 1 = h := by omega
    rw [e1, e2, Nat.mul_comm]
  have a1 : checkRange w w (8 * (w * h)) = some () := checkRange_some (by omega)
  have a2 : checkRange 0 w (8 * (w * h)) = some () := checkRange_some (by omega)
  have a3 : checkRange 0 w (w * h) = some () := checkRange_some (by omega)
  have g5 : cSub h 1 = some (h - 1) := cSub_some (by omega)
  simp only [a1, a2, a3, g5, Option.bind_eq_bind, Option.some_bind]
  apply bind_forRange_someB
  · intro k hk
    have f1 : (k + 3) * w ≤ h * w := Nat.mul_le_mul_right w (by omega)
    have f2 : (k + 3) * w = (k + 1 - 1) * w + 3 * w := by
      have e0 : k + 1 - 1 = k := by omega
      rw [e0]
      ring
    have f3 : h * w = w * h := Nat.mul_comm h w
    have f4 : (k + 2) * w ≤ h * w := Nat.mul_le_mul_right w (by omega)
    have f5 : (k + 2) * w = (k + 1) * w + w := by ring
    have b1 : checkRange ((k + 1 - 1) * w + 2 * w) w (8 * (w * h)) = some () :=
      checkRange_some (by omega)
    have b2 : checkRange ((k + 1 - 1) * w) w (8 * (w * h)) = some () :=
      checkRange_some (by omega)
    have b3 : checkRange ((k + 1) * w) w (w * h) = some () :=
      checkRange_some (by omega)
    simp only [b1, b2, b3, Option.bind_eq_bind, Option.some_bind]
  · have g6 : checkRange ((h - 1) * w) w (8 * (w * h)) = some () :=
      checkRange_some (by omega)
    have g7 : checkRangeI ((((h - 1) * w : Nat) : Int) - ((w : Nat) : Int)) w
        (8 * (w * h)) = some () := by
      apply checkRangeI_some
      have hge : w ≤ (h - 1) * w := Nat.le_mul_of_pos_left w (by omega)
      constructor <;> omega
    have g8 : checkRange ((h - 1) * w) w (w * h) = some () :=
      checkRange_some (by omega)
    simp only [g6, g7, g8, Option.bind_eq_bind, Option.some_bind]

theorem checkFill_some (len ch : Nat) (hch : ch ≤ 5) :
    checkFill len ch len = some () := by
  unfold checkFill
  apply forRange_eq_some
  intro i hi
  have c1 : checkIdx i len = some () := checkIdx_some (by omega)
  have c2 : checkIdx (8 * i + ch) (8 * len) = some () := checkIdx_some (by omega)
  have c3 : checkIdx (8 * i + ch + 2) (8 * len) = some () := checkIdx_some (by omega)
  simp only [c1, c2, c3, Option.bind_eq_bind, Option.some_bind]

theorem checkAbs_some (len : Nat) : checkAbs len = some () := by
  unfold checkAbs
  apply forRange_eq_some
  intro i hi
  have c1 : checkIdx i len = some () := checkIdx_some (by omega)
  simp only [c1, Option.bind_eq_bind, Option.some_bind]

theorem checkMask_some (len : Nat) (hlen : 2 ≤ len) : checkMask len = some () := by
  unfold checkMask
  have c1 : checkIdx 1 len = some () := checkIdx_some (by omega)
  simp only [c1, Option.bind_eq_bind, Option.some_bind]
  apply forRange_eq_some
  intro i hi
  apply forRange_eq_some
  intro j hj
  exact checkIdx_some (by omega)

theorem checkIntegral_some (w h : Nat) (hw : 1 ≤ w) (hh : 1 ≤ h) :
    checkIntegral w h = some () := by
  unfold checkIntegral
  have g1 : cSub h 1 = some (h - 1) := cSub_some (by omega)
  simp only [g1, Option.bind_eq_bind, Option.some_bind]
  apply bind_forRange_someB
  · intro r hr
    have f1 : (r + 2) * (8 * w) ≤ h * (8 * w) := Nat.mul_le_mul_right _ (by omega)
    have f2 : (r + 2) * (8 * w) = r * (8 * w) + 2 * (8 * w) := by ring
    have f3 : h * (8 * w) = 8 * (w * h) := by ring
    have f4 : (r + 1) * (8 * w) = r * (8 * w) + 8 * w := by ring
    have b1 : checkRange (r * (8 * w)) (8 * w) (8 * (w * h)) = some () :=
      checkRange_some (by omega)
    have b2 : checkRange ((r + 1) * (8 * w)) (8 * w) (8 * (w * h)) = some () :=
      checkRange_some (by omega)
    simp only [b1, b2, Option.bind_eq_bind, Option.some_bind]
  · apply forRange_eq_some
    intro r hr
    have e8 : 8 * w / 8 = w := Nat.mul_div_cancel_left w (by norm_num)
    have g2 : cSub (8 * w / 8) 1 = some (w - 1) := by
      rw [e8]
      exact cSub_some (by omega)
    simp only [g2, Option.bind_eq_bind, Option.some_bind]
    apply forRange_eq_some
    intro i hi
    have f1 : (i + 2) * 8 ≤ w * 8 := Nat.mul_le_mul_right _ (by omega)
    have f2 : (i + 2) * 8 = i * 8 + 16 := by ring
    have f3 : (r + 1) * (8 * w) ≤ h * (8 * w) := Nat.mul_le_mul_right _ (by omega)
    have f4 : (r + 1) * (8 * w) = r * (8 * w) + 8 * w := by ring
    have f5 : h * (8 * w) = 8 * (w * h) := by ring
    have f6 : w * 8 = 8 * w := by ring
    have f7 : (i + 1) * 8 = i * 8 + 8 := by ring
    have b1 : checkRange (r * (8 * w) + i * 8) 8 (8 * (w * h)) = some () :=
      checkRange_some (by omega)
    have b2 : checkRange (r * (8 * w) + (i + 1) * 8) 8 (8 * (w * h)) = some () :=
      checkRange_some (by omega)
    simp only [b1, b2, Option.bind_eq_bind, Option.some_bind]

/-- Claim C8 (amended): for every width >= 2 and height >= 2, every buffer
index taken during the copy, gradient computation, channel fill, masking and
summation is in bounds of its owning allocation and no unsigned subtraction
or isize offset computation underflows: the fully checked compute succeeds. -/
theorem claim_C8_checked_safe (w h : Nat) (hw : 2 ≤ w) (hh : 2 ≤ h) :
    checkedCompute w h = some () := by
  unfold checkedCompute
  have hwh : 4 ≤ w * h := Nat.mul_le_mul hw hh
  rw [if_neg (by omega)]
  simp only [checkCopy_some w h, checkGradX_some w h hw,
    checkGradY_some w h (by omega) hh,
    checkFill_some (w * h) 0 (by omega), checkFill_some (w * h) 4 (by omega),
    checkFill_some (w * h) 1 (by omega), checkFill_some (w * h) 5 (by omega),
    checkAbs_some (w * h), checkMask_some (w * h) (by omega),
    checkIntegral_some w h (by omega) (by omega),
    Option.bind_eq_bind, Option.some_bind]

/-- Claim C8 counterexample: the claim as stated (safety for every width,
height >= 1) fails. At width 1 the u32 subtraction `width - 2` in
compute_grad_x underflows, and at height 1 the isize offset
`offset - width` in compute_grad_y goes negative (an out-of-bounds pointer),
although both inputs pass the documented InvalidArgument check. -/
theorem claim_C8_cex :
    1 ≤ (1 : Nat) ∧ 1 ≤ (5 : Nat) ∧
      checkedCompute 1 5 = none ∧ checkedCompute 5 1 = none := by
  decide

/-- Claim C8 witness: a concrete safe instance. -/
theorem claim_C8_checked_safe_witness : checkedCompute 2 2 = some () :=
  claim_C8_checked_safe 2 2 (by decide) (by decide)

/-- Claim C6 (code evidence): FeaturePool::create(), as invoked from
SurfMlpFeatureMap::new() (every sampling parameter still 0, five built-in
formats), never terminates: the very first candidate size (h = 0) is accepted
and collect_features then loops forever because patch_move_step_y is 0 (and
the size sweep itself advances by patch_size_inc_step = 0).  The fueled model
returns none for every fuel. -/
theorem claim_C6_create_diverges : ∀ fuel, createF fuel builtinPool = none := by
  have hfirst : ∀ fuel, hSweepF builtinPool ⟨1, 1, 2, 2⟩ fuel 0 = none := by
    intro fuel
    cases fuel with
    | zero => rfl
    | succ n =>
      have hmw : builtinPool.patchMinWidth = 0 := rfl
      have hys : sweepF builtinPool.patchMoveStepY builtinPool.sampleHeight
          (n + 1) 0 = none := by
        have hstep : builtinPool.patchMoveStepY = 0 := rfl
        rw [hstep]
        exact sweepF_step_zero_none _ _ _ (Nat.zero_le _)
      simp only [hSweepF, collectFeaturesF]
      norm_num [hmw]
      simp [hys]
  intro fuel
  have hform : builtinPool.patchFormats =
      [⟨1, 1, 2, 2⟩, ⟨1, 2, 2, 2⟩, ⟨2, 1, 2, 2⟩, ⟨2, 3, 2, 2⟩, ⟨3, 2, 2, 2⟩] := rfl
  unfold createF
  rw [hform]
  have hcond : builtinPool.sampleHeight - builtinPool.patchMinHeight ≤
      builtinPool.sampleWidth - builtinPool.patchMinWidth := by decide
  have hmh : builtinPool.patchMinHeight = 0 := rfl
  rw [if_pos hcond]
  simp only [formatsFold, hmh, hfirst fuel]
  rfl

end SurfMlp
